import Mathlib

/-!
Verification development for the trocco-batch-search MCP server.

The definitions below are a shallow embedding of the two core components:

* `src/troccoClient.js` — the request client (`TroccoClient.buildUrl`,
  `TroccoClient.request`, `shouldParseJson`, `anySignal`,
  `TroccoApiError`).
* `src/server.js` — the `trocco_batch_search` orchestrator (the four
  strategy loops, the shared filter, `uniqueMatches` deduplication,
  `fetchJobDefinitionDetails` / `extractConfigDetails` enrichment).

JavaScript strings are modelled as Lean `String` (adequate for the BMP
code points exercised here), JS `undefined`/`null` optional fields as
`Option`, fallible operations as `Except`/`Option`, and the external
runtime primitives (WHATWG `URL`, `JSON.parse`, the HTTP transport) as
explicit function parameters so that theorems quantify over them.
-/

namespace Trocco

/-! ## Strings: JS `toLowerCase`, `includes`, `substring` -/

/-- JS `s.toLowerCase()` (ASCII-adequate model via `Char.toLower`). -/
def lowerStr (s : String) : String :=
  String.mk (s.data.map Char.toLower)

/-- Contiguous-sublist test on character lists. -/
def listInfix (needle : List Char) : List Char → Bool
  | [] => needle.isEmpty
  | c :: rest => needle.isPrefixOf (c :: rest) || listInfix needle rest

/-- JS `hay.includes(needle)`: substring containment. -/
def strIncludes (hay needle : String) : Bool :=
  listInfix needle.data hay.data

/-- JS `s.startsWith(pre)`. -/
def strStartsWith (s pre : String) : Bool :=
  pre.data.isPrefixOf s.data

/-- JS `s.substring(i, j)` (arguments already ordered, clamped by `take`/`drop`). -/
def jsSubstring (s : String) (i j : Nat) : String :=
  String.mk ((s.data.drop (min i j)).take (max i j - min i j))

/-- JS `s.substring(i)`: from `i` to the end. -/
def jsSubstringFrom (s : String) (i : Nat) : String :=
  String.mk (s.data.drop i)

/-! ## Data model of the orchestrator (server.js) -/

/-- A job-definition record as the orchestrator reads it: `id` is the
identity key; the remaining listing fields may be absent (`undefined`). -/
structure Item where
  id : Nat
  name : Option String
  description : Option String
  input_option_type : Option String
  output_option_type : Option String
  created_by : Option String
deriving DecidableEq, Repr

/-- The query object assembled by the strategy loops
(`{ limit }`, `{ limit, cursor }`, `{ name_contains, limit }`). -/
structure Query where
  name_contains : Option String
  limit : Nat
  cursor : Option String
deriving DecidableEq, Repr

/-- Outcome of one `client.request` call inside a strategy loop: the
response's `data?.items || []` and `data?.next_cursor`, or a thrown error. -/
inductive Outcome where
  | success (items : List Item) (next_cursor : Option String)
  | failure
deriving DecidableEq, Repr

/-- The mutable locals of the `trocco_batch_search` handler
(`totalScanned`, `batchesSearched`, `allMatches`), plus the list of
queries issued so far (a ghost trace of the `client.request` calls). -/
structure ScanState where
  totalScanned : Nat
  batchesSearched : Nat
  allMatches : List Item
  issued : List Query
deriving DecidableEq, Repr

def initScanState : ScanState := ⟨0, 0, [], []⟩

/-! The four per-batch record processors.  Each is the body of the
corresponding `case` arm after a successful request: it adds
`items.length` to `totalScanned`, increments `batchesSearched`, filters
`items` and appends the matches to `allMatches`.  `exhaustive_scan` and
`recent_first` test `(item.name || '').toLowerCase()` *and*
`(item.description || '').toLowerCase()`; `keyword_chunks` and
`alphabet_sweep` test only the name. -/

/-- server.js `exhaustive_scan` batch body (lines 524–535). -/
def exhaustiveProcessBatch (searchTermLower : String) (st : ScanState)
    (items : List Item) : ScanState :=
  { st with
    totalScanned := st.totalScanned + items.length
    batchesSearched := st.batchesSearched + 1
    allMatches := st.allMatches ++ items.filter (fun item =>
      strIncludes (lowerStr (item.name.getD "")) searchTermLower ||
      strIncludes (lowerStr (item.description.getD "")) searchTermLower) }

/-- server.js `keyword_chunks` batch body (lines 568–577): name only. -/
def keywordProcessBatch (searchTermLower : String) (st : ScanState)
    (items : List Item) : ScanState :=
  { st with
    totalScanned := st.totalScanned + items.length
    batchesSearched := st.batchesSearched + 1
    allMatches := st.allMatches ++ items.filter (fun item =>
      strIncludes (lowerStr (item.name.getD "")) searchTermLower) }

/-- server.js `alphabet_sweep` batch body (lines 598–607): name only. -/
def alphabetProcessBatch (searchTermLower : String) (st : ScanState)
    (items : List Item) : ScanState :=
  { st with
    totalScanned := st.totalScanned + items.length
    batchesSearched := st.batchesSearched + 1
    allMatches := st.allMatches ++ items.filter (fun item =>
      strIncludes (lowerStr (item.name.getD "")) searchTermLower) }

/-- server.js `recent_first` batch body (lines 626–636). -/
def recentProcessBatch (searchTermLower : String) (st : ScanState)
    (items : List Item) : ScanState :=
  { st with
    totalScanned := st.totalScanned + items.length
    batchesSearched := st.batchesSearched + 1
    allMatches := st.allMatches ++ items.filter (fun item =>
      strIncludes (lowerStr (item.name.getD "")) searchTermLower ||
      strIncludes (lowerStr (item.description.getD "")) searchTermLower) }

/-- Spec §4.2 shared matching predicate, written from the spec's words:
"a record matches iff its name or description, case-folded, contains the
case-folded search term as a substring". -/
def specMatch (searchTerm : String) (item : Item) : Bool :=
  strIncludes (lowerStr (item.name.getD "")) (lowerStr searchTerm) ||
  strIncludes (lowerStr (item.description.getD "")) (lowerStr searchTerm)

/-- Name-only variant actually used by `keyword_chunks` / `alphabet_sweep`. -/
def nameOnlyMatch (searchTerm : String) (item : Item) : Bool :=
  strIncludes (lowerStr (item.name.getD "")) (lowerStr searchTerm)

/-! ## keyword_chunks chunk generation (server.js lines 550–558) -/

/-- The 3-character sliding windows: `for (let i = 0; i < term.length - 2; i++)
chunks.push(term.substring(i, i + 3))`.  (JS `length - 2` is negative for
short terms and the loop body never runs; `Nat` subtraction models this.) -/
def chunkWindows (term : String) : List String :=
  (List.range (term.length - 2)).map (fun i => jsSubstring term i (i + 3))

/-- The chunk array before deduplication: windows, then
`term.substring(0, Math.floor(term.length / 2))`, then
`term.substring(Math.floor(term.length / 2))`. -/
def chunksPre (term : String) : List String :=
  chunkWindows term ++
    [jsSubstring term 0 (term.length / 2), jsSubstringFrom term (term.length / 2)]

/-- JS `[...new Set(xs)]`: insertion-order deduplication, first
occurrence kept. -/
def setDedup (seen : List String) : List String → List String
  | [] => []
  | s :: rest =>
    if s ∈ seen then setDedup seen rest
    else s :: setDedup (s :: seen) rest

/-- The deduplicated chunk set actually iterated by `keyword_chunks`. -/
def chunkSet (term : String) : List String := setDedup [] (chunksPre term)

/-- Modelled from the spec's words for §4.2 `keyword_chunks`: "every
contiguous 3-character window of the search term, plus its first half and
second half (splitting at the midpoint, integer floor)".  A window starts
at any position `i` with `i + 3 ≤ length`; the halves are the first
`⌊length/2⌋` characters and the rest. -/
def specKeywordChunks (term : String) : List String :=
  ((List.range term.length).filter (fun i => i + 3 ≤ term.length)).map
      (fun i => String.mk ((term.data.drop i).take 3)) ++
    [String.mk (term.data.take (term.length / 2)),
     String.mk (term.data.drop (term.length / 2))]

/-! ## Strategy loops for keyword_chunks and alphabet_sweep

Each loop iteration first checks `batchesSearched >= maxBatches` and
breaks, then issues the request (recorded in `issued`); on success it runs
the batch body, on failure it silently continues.  Since a `break` in a
loop whose guard re-fires every iteration is equivalent to the guard
skipping all remaining iterations, the loops are modelled as folds whose
step is the identity once the guard holds.  The environment
`env : Nat → Outcome` gives the outcome of the n-th issued request. -/

/-- One `for (const chunk of [...new Set(chunks)])` iteration of
`keyword_chunks` (server.js lines 558–581). -/
def keywordStep (searchTermLower : String) (maxBatches : Nat)
    (env : Nat → Outcome) (st : ScanState) (chunk : String) : ScanState :=
  if st.batchesSearched ≥ maxBatches then st
  else
    let q : Query := { name_contains := some chunk, limit := 200, cursor := none }
    let st1 := { st with issued := st.issued ++ [q] }
    match env st.issued.length with
    | Outcome.success items _ => keywordProcessBatch searchTermLower st1 items
    | Outcome.failure => st1

/-- The whole `keyword_chunks` arm. -/
def keywordChunksScan (searchTerm : String) (maxBatches : Nat)
    (env : Nat → Outcome) : ScanState :=
  (chunkSet searchTerm).foldl (keywordStep (lowerStr searchTerm) maxBatches env)
    initScanState

/-- server.js line 586: `'abcdefghijklmnopqrstuvwxyz0123456789'.split('')`. -/
def alphabetLetters : List String :=
  "abcdefghijklmnopqrstuvwxyz0123456789".data.map (fun c => String.mk [c])

/-- One `for (const letter of letters)` iteration of `alphabet_sweep`
(server.js lines 588–611). -/
def alphabetStep (searchTermLower : String) (maxBatches : Nat)
    (env : Nat → Outcome) (st : ScanState) (letter : String) : ScanState :=
  if st.batchesSearched ≥ maxBatches then st
  else
    let q : Query := { name_contains := some letter, limit := 200, cursor := none }
    let st1 := { st with issued := st.issued ++ [q] }
    match env st.issued.length with
    | Outcome.success items _ => alphabetProcessBatch searchTermLower st1 items
    | Outcome.failure => st1

/-- The whole `alphabet_sweep` arm. -/
def alphabetSweepScan (searchTerm : String) (maxBatches : Nat)
    (env : Nat → Outcome) : ScanState :=
  alphabetLetters.foldl (alphabetStep (lowerStr searchTerm) maxBatches env)
    initScanState

/-! ## Deduplication (server.js lines 647–649)

`allMatches.filter((match, index, arr) => arr.findIndex(m => m.id === match.id) === index)`.
-/

/-- JS `arr.findIndex(m => m.id === a)`: `-1` when absent. -/
def jsFindIndexId (a : Nat) : List Item → Int
  | [] => -1
  | x :: xs =>
    if x.id = a then 0
    else
      let r := jsFindIndexId a xs
      if r = -1 then -1 else r + 1

/-- The JS `filter((m, index, arr) => ...)` callback semantics: `i` is the
index of the head of the remaining list within the fixed array `l`. -/
def uniqueAux (l : List Item) : Nat → List Item → List Item
  | _, [] => []
  | i, y :: ys =>
    if jsFindIndexId y.id l = (i : Int) then y :: uniqueAux l (i + 1) ys
    else uniqueAux l (i + 1) ys

/-- server.js `uniqueMatches`: keep each element whose index is the first
index carrying its `id`. -/
def uniqueMatches (l : List Item) : List Item := uniqueAux l 0 l

/-- Reference formulation of first-occurrence deduplication: walk the
list with the set of already-seen ids. -/
def dedupSeenIds (seen : List Nat) : List Item → List Item
  | [] => []
  | y :: ys =>
    if y.id ∈ seen then dedupSeenIds seen ys
    else y :: dedupSeenIds (y.id :: seen) ys

/-! ## The request client (troccoClient.js) -/

/-- JSON values (the result of `JSON.parse`). -/
inductive Json where
  | null
  | bool (b : Bool)
  | num (n : Int)
  | str (s : String)
  | arr (xs : List Json)
  | obj (fields : List (String × Json))

/-- JS values that can appear in a `query` mapping. -/
inductive JsVal where
  | undef
  | null
  | str (s : String)
  | num (n : Int)
  | arr (xs : List JsVal)

/-- JS `String(value)` on the scalars used in queries. -/
def jsValToString : JsVal → String
  | JsVal.undef => "undefined"
  | JsVal.null => "null"
  | JsVal.str s => s
  | JsVal.num n => toString n
  | JsVal.arr _ => ""

/-- `URLSearchParams.set`: replace the first entry with this key (keeping
its position), drop any further entries with the key, else append. -/
def setParam : List (String × String) → String → String → List (String × String)
  | [], k, v => [(k, v)]
  | p :: ps, k, v =>
    if p.1 = k then (k, v) :: ps.filter (fun q => q.1 ≠ k)
    else p :: setParam ps k v

/-- The `buildUrl` query loop (troccoClient.js lines 58–71):
`undefined`/`null` values are skipped, arrays are appended one entry per
element, scalars are stringified and `set`. -/
def serializeQuery (query : List (String × JsVal)) : List (String × String) :=
  query.foldl
    (fun ps kv =>
      match kv.2 with
      | JsVal.undef => ps
      | JsVal.null => ps
      | JsVal.arr xs => xs.foldl (fun ps2 x => ps2 ++ [(kv.1, jsValToString x)]) ps
      | v => setParam ps kv.1 (jsValToString v))
    []

/-- The WHATWG `URL` runtime primitives `buildUrl` relies on, kept
abstract: `href` serializes an absolute URL, `relPart` is its
`pathname + search + hash`, `resolve rel base` is `new URL(rel, base)`
serialized without the query added later. -/
structure UrlLib where
  href : String → String
  relPart : String → String
  resolve : String → String → String

/-- A built URL: the resolved address plus its query parameters. -/
structure BuiltUrl where
  address : String
  params : List (String × String)
deriving DecidableEq

/-- `TroccoClient.buildUrl` (troccoClient.js lines 40–73).  Errors are the
synchronously thrown `Error`s: missing path, or an absolute URL whose
`href` does not start with the configured base URL. -/
def buildUrl (U : UrlLib) (baseUrl : String) (path : String)
    (query : List (String × JsVal)) : Except String BuiltUrl :=
  if path = "" then Except.error "TroccoClient request requires a path string"
  else
    let normalized : Except String String :=
      if strStartsWith path "http" then
        if ¬ strStartsWith (U.href path) baseUrl then
          Except.error "External URLs are not allowed. Pass a relative Trocco API path."
        else Except.ok (U.relPart path)
      else if strStartsWith path "/" then Except.ok (String.mk (path.data.drop 1))
      else Except.ok path
    match normalized with
    | Except.error e => Except.error e
    | Except.ok np => Except.ok ⟨U.resolve np baseUrl, serializeQuery query⟩

/-- What the model reads from a settled `fetch` response: status line,
final URL, headers, and the full body text (`response.text()`). -/
structure FetchResponse where
  status : Nat
  statusText : String
  url : String
  headers : List (String × String)
  bodyText : String

/-- `Response.ok` per the fetch standard: status in the 2xx range. -/
def respOk (r : FetchResponse) : Bool :=
  decide (200 ≤ r.status) && decide (r.status < 300)

/-- `Headers.get` (header names already lower-cased, as fetch stores them). -/
def getHeader (hs : List (String × String)) (k : String) : Option String :=
  (hs.find? (fun p => p.1 = k)).map (fun p => p.2)

/-- `shouldParseJson` (troccoClient.js lines 259–271).  `responseType` is
the raw string option with default `'auto'`; any value other than
`'json'`/`'text'` falls through to the content-type sniff. -/
def shouldParseJson (resp : FetchResponse) (responseType : String) : Bool :=
  if responseType = "json" then true
  else if responseType = "text" then false
  else
    match getHeader resp.headers "content-type" with
    | none => false
    | some contentType =>
      strIncludes contentType "application/json" || strIncludes contentType "+json"

/-- The request context attached to every `TroccoApiError`
(troccoClient.js lines 127–134; body/query/headers omitted as opaque). -/
structure RequestContext where
  url : String
  method : String
  timeoutMs : Nat
deriving DecidableEq

/-- The `ResponseEnvelope` summary built by `request` (troccoClient.js
lines 152–162; `durationMs` is wall-clock time and is not modelled). -/
structure Summary where
  ok : Bool
  status : Nat
  statusText : String
  url : String
  method : String
  headers : List (String × String)
  data : Option Json
  text : Option String

/-- `TroccoApiError` (troccoClient.js lines 12–19): the single error type;
`response` is present for non-2xx statuses and absent for transport
failures. -/
structure TroccoApiError where
  message : String
  request : RequestContext
  response : Option Summary

/-- Errors escaping `request`: either the synchronous usage `Error` from
`buildUrl` (thrown outside the try block, never wrapped) or a
`TroccoApiError`. -/
inductive ReqError where
  | usage (message : String)
  | api (e : TroccoApiError)

/-- The summary constructed from a settled response
(troccoClient.js lines 141–162): parse the body as JSON only when it is
non-empty and `shouldParseJson` holds; a parse failure leaves `data`
undefined; `text` holds the raw body exactly when `data` is undefined and
the body is non-empty. -/
def mkSummary (parse : String → Option Json) (responseType : String)
    (method : String) (resp : FetchResponse) : Summary :=
  let rawText := resp.bodyText
  let parsed : Option Json :=
    if rawText ≠ "" && shouldParseJson resp responseType then parse rawText
    else none
  { ok := respOk resp
    status := resp.status
    statusText := resp.statusText
    url := resp.url
    method := method
    headers := resp.headers
    data := parsed
    text := if parsed.isSome then none else if rawText = "" then none else some rawText }

/-- The post-fetch half of `request` (troccoClient.js lines 141–174):
build the summary, then throw a `TroccoApiError` carrying the request
context and the summary when the status is not 2xx, else return the
summary. -/
def processResponse (parse : String → Option Json) (responseType : String)
    (reqCtx : RequestContext) (resp : FetchResponse) :
    Except TroccoApiError Summary :=
  let summary := mkSummary parse responseType reqCtx.method resp
  if respOk resp then Except.ok summary
  else
    Except.error
      { message := "Trocco API responded with " ++ toString resp.status ++ " " ++
          resp.statusText
        request := reqCtx
        response := some summary }

/-- How the one `fetch` call settles. -/
inductive FetchOutcome where
  | resolved (resp : FetchResponse)
  | rejected (message : String)

/-- `TroccoClient.request` (troccoClient.js lines 89–185), with the
transport outcome supplied explicitly.  The second component records
whether the network was reached: `buildUrl` runs before the fetch, so its
failure returns a usage error with no network activity.  A rejected fetch
is wrapped into a `TroccoApiError` that keeps the message and the request
context but no response (the original failure becomes `cause`). -/
def request (U : UrlLib) (baseUrl : String) (parse : String → Option Json)
    (path : String) (method : String) (query : List (String × JsVal))
    (timeoutMs : Nat) (responseType : String) (outcome : FetchOutcome) :
    Except ReqError Summary × Bool :=
  match buildUrl U baseUrl path query with
  | Except.error msg => (Except.error (ReqError.usage msg), false)
  | Except.ok built =>
    let reqCtx : RequestContext :=
      { url := built.address, method := method, timeoutMs := timeoutMs }
    match outcome with
    | FetchOutcome.rejected msg =>
      (Except.error (ReqError.api { message := msg, request := reqCtx, response := none }),
       true)
    | FetchOutcome.resolved resp =>
      ((processResponse parse responseType reqCtx resp).mapError ReqError.api, true)

/-! ## Cancellation composition (`anySignal`, troccoClient.js lines 273–289)

A source signal either is already aborted when `anySignal` runs, or fires
its `abort` event at some instant (`fireTime`, `none` = never).  Event
dispatch is serialized by the event loop, so distinct sources fire at
distinct instants and listeners run in time order.  `AbortController.abort`
is idempotent: only the first call sets the reason. -/

structure SigModel where
  preAborted : Bool
  preReason : String
  fireTime : Option Nat
  fireReason : String

/-- `controller.abort(r)`: a no-op once aborted. -/
def jsAbort (state : Option String) (r : String) : Option String :=
  match state with
  | some _ => state
  | none => some r

/-- The setup loop of `anySignal`: walk the sources in order; on the
first already-aborted one, abort with its reason and `break` (no further
listeners); otherwise attach a listener and continue.  Returns the
controller state after setup and the sources that got listeners. -/
def setupScan : List SigModel → Option String × List SigModel
  | [] => (none, [])
  | s :: rest =>
    if s.preAborted then (some s.preReason, [])
    else
      let p := setupScan rest
      (p.1, s :: p.2)

/-- Insertion by firing instant (stable for the strictly distinct
instants the event loop produces). -/
def insertByTime (x : Nat × String) : List (Nat × String) → List (Nat × String)
  | [] => [x]
  | y :: ys => if x.1 < y.1 then x :: y :: ys else y :: insertByTime x ys

def sortByTime : List (Nat × String) → List (Nat × String)
  | [] => []
  | x :: xs => insertByTime x (sortByTime xs)

/-- The abort events delivered to the attached listeners, in time order. -/
def firedEvents (listeners : List SigModel) : List (Nat × String) :=
  sortByTime (listeners.filterMap (fun s => s.fireTime.map (fun t => (t, s.fireReason))))

/-- The reason ultimately carried by `anySignal(signals)`: the setup
state, then each delivered event calls `controller.abort(reason)`. -/
def anySignalReason (signals : List SigModel) : Option String :=
  let p := setupScan signals
  ((firedEvents p.2).map (fun e => e.2)).foldl jsAbort p.1

/-- The timeout abort reason (troccoClient.js line 109). -/
def timeoutMessage (t : Nat) : String :=
  "Trocco API request timed out after " ++ toString t ++ " ms"

/-- The composite signal `request` builds when a caller-supplied signal
is present (troccoClient.js lines 100–111): `anySignal` over the fresh
timeout controller's signal (never pre-aborted, firing at `timeoutMs`
with the timeout message) followed by the external signal. -/
def requestCompositeReason (timeoutMs : Nat) (ext : SigModel) : Option String :=
  anySignalReason
    [{ preAborted := false, preReason := "", fireTime := some timeoutMs,
       fireReason := timeoutMessage timeoutMs }, ext]

/-! ## Enrichment (server.js lines 351–473 and 651–661)

Field names ending in the substring `prefix` are renamed
(`pathPrefix` for JS `path_prefix`, `prefixStr` for JS `prefix`,
`keyPrefix` for JS `key_prefix`); everything else keeps the JS name. -/

/-- JS truthiness of an optional string: present and non-empty. -/
def jsTruthyStr : Option String → Bool
  | some s => s ≠ ""
  | none => false

/-- JS `a || b` on optional strings: `a` when truthy, else `b`. -/
def jsOrStr (a b : Option String) : Option String :=
  if jsTruthyStr a then a else b

/-- The fields read off an S3 option object. -/
structure S3Opt where
  bucket : Option String
  pathPrefix : Option String
  prefixStr : Option String
  keyPrefix : Option String
  region : Option String
deriving DecidableEq, Repr

structure SnowflakeOpt where
  database : Option String
  schema : Option String
  table : Option String
  warehouse : Option String
deriving DecidableEq, Repr

structure BigqueryOpt where
  project_id : Option String
  dataset_id : Option String
  table_id : Option String
deriving DecidableEq, Repr

/-- `details.input_option`: either a nested `s3_input_option` /
`snowflake_input_option`, or (fallback pattern) S3 fields directly on the
object itself. -/
structure InputOption where
  s3_input_option : Option S3Opt
  snowflake_input_option : Option SnowflakeOpt
  direct : S3Opt
deriving DecidableEq, Repr

structure OutputOption where
  s3_output_option : Option S3Opt
  snowflake_output_option : Option SnowflakeOpt
  bigquery_output_option : Option BigqueryOpt
  direct : S3Opt
deriving DecidableEq, Repr

/-- The detail record returned by `GET job_definitions/{id}`, as
`extractConfigDetails` reads it. -/
structure Details where
  input_option_type : Option String
  input_option : Option InputOption
  output_option_type : Option String
  output_option : Option OutputOption
deriving DecidableEq, Repr

/-- `{ bucket, prefix: ... || '', region }` as built for the config. -/
structure S3Cfg where
  bucket : Option String
  prefixStr : String
  region : Option String
deriving DecidableEq, Repr

structure SnowflakeCfg where
  database : Option String
  schema : Option String
  table : Option String
  warehouse : Option String
deriving DecidableEq, Repr

structure BigqueryCfg where
  project_id : Option String
  dataset_id : Option String
  table_id : Option String
deriving DecidableEq, Repr

/-- The `config` object assembled by `extractConfigDetails`. -/
structure Config where
  input_s3 : Option S3Cfg
  input_snowflake : Option SnowflakeCfg
  output_s3 : Option S3Cfg
  output_snowflake : Option SnowflakeCfg
  output_bigquery : Option BigqueryCfg
deriving DecidableEq, Repr

/-- The `config = {}` starting point (also the result for a failed or
connector-less detail). -/
def emptyConfig : Config := ⟨none, none, none, none, none⟩

/-- `s3Config.path_prefix || s3Config.prefix || s3Config.key_prefix || ''`. -/
def s3PrefixOf (c : S3Opt) : String :=
  (jsOrStr (jsOrStr (S3Opt.pathPrefix c) (S3Opt.prefixStr c)) (S3Opt.keyPrefix c)).getD ""

def s3CfgOf (c : S3Opt) : S3Cfg :=
  ⟨c.bucket, s3PrefixOf c, c.region⟩

/-- The S3 pattern selection (server.js lines 371–388 and 404–418):
pattern 1 is a nested `s3_*_option` object, pattern 2 requires a truthy
`bucket` directly on the option object. -/
def pickS3 (nested : Option S3Opt) (direct : S3Opt) : Option S3Cfg :=
  match nested with
  | some c => some (s3CfgOf c)
  | none => if jsTruthyStr direct.bucket then some (s3CfgOf direct) else none

def snowflakeCfgOf (c : SnowflakeOpt) : SnowflakeCfg :=
  ⟨c.database, c.schema, c.table, c.warehouse⟩

/-- `extractConfigDetails` (server.js lines 366–443). -/
def extractConfigDetails (d : Details) : Config :=
  let inS3 : Option S3Cfg :=
    match d.input_option with
    | some io =>
      if d.input_option_type = some "s3" then pickS3 io.s3_input_option io.direct
      else none
    | none => none
  let inSf : Option SnowflakeCfg :=
    match d.input_option with
    | some io =>
      if d.input_option_type = some "snowflake" then
        io.snowflake_input_option.map snowflakeCfgOf
      else none
    | none => none
  let outS3 : Option S3Cfg :=
    match d.output_option with
    | some oo =>
      if d.output_option_type = some "s3" then pickS3 oo.s3_output_option oo.direct
      else none
    | none => none
  let outSf : Option SnowflakeCfg :=
    match d.output_option with
    | some oo =>
      if d.output_option_type = some "snowflake" then
        oo.snowflake_output_option.map snowflakeCfgOf
      else none
    | none => none
  let outBq : Option BigqueryCfg :=
    match d.output_option with
    | some oo =>
      if d.output_option_type = some "bigquery" then
        oo.bigquery_output_option.map (fun c => ⟨c.project_id, c.dataset_id, c.table_id⟩)
      else none
    | none => none
  ⟨inS3, inSf, outS3, outSf, outBq⟩

/-- `fetchJobDefinitionDetails` (server.js lines 351–363): a successful
request yields `response.data` (which may itself be `undefined`); any
thrown error is caught and becomes `null`. -/
def fetchJobDefinitionDetails (fetchDetail : Nat → Except String (Option Details))
    (jobId : Nat) : Option Details :=
  match fetchDetail jobId with
  | Except.ok d => d
  | Except.error _ => none

/-- One enriched entry: the listing item spread together with its
extracted `config`. -/
structure Enriched where
  item : Item
  config : Config
deriving DecidableEq, Repr

/-- `enrichedMatches` (server.js lines 652–661): the first five
deduplicated matches, each with `details ? extractConfigDetails(details)
: {}`. -/
def enrichMatches (fetchDetail : Nat → Except String (Option Details))
    (uniq : List Item) : List Enriched :=
  (uniq.take 5).map (fun item =>
    ⟨item,
      match fetchJobDefinitionDetails fetchDetail item.id with
      | some d => extractConfigDetails d
      | none => emptyConfig⟩)

/-- `TROCCO_BASE_URL.replace(/\/api\/?$/, '')`. -/
def stripApiSuffix (s : String) : String :=
  if s.endsWith "/api/" then s.dropRight 5
  else if s.endsWith "/api" then s.dropRight 4
  else s

/-- `generateJobDefinitionUrl` (server.js lines 344–348). -/
def generateJobDefinitionUrl (baseUrl : String) (jobId : Nat) : String :=
  stripApiSuffix baseUrl ++ "/job_definitions/" ++ toString jobId

/-- One entry of the returned `matches` array (server.js lines 668–676). -/
structure Projected where
  id : Nat
  name : Option String
  description : Option String
  input_type : Option String
  output_type : Option String
  created_by : Option String
  url : String
deriving DecidableEq, Repr

def projectItem (baseUrl : String) (item : Item) : Projected :=
  ⟨item.id, item.name, item.description, item.input_option_type,
   item.output_option_type, item.created_by, generateJobDefinitionUrl baseUrl item.id⟩

/-- The `structuredContent` success payload (server.js lines 663–678). -/
structure ScanResult where
  ok : Bool
  strategy : String
  batchesSearched : Nat
  totalScanned : Nat
  matchesList : List Projected
  searchProgress : String
deriving DecidableEq, Repr

/-- The tail of the handler after the strategy loop: deduplicate,
enrich the head (detail failures already absorbed by
`fetchJobDefinitionDetails`), and assemble the always-`ok` result.  The
enriched list feeds only the human-readable text. -/
def buildSearchOutcome (baseUrl strategy : String) (maxBatches : Nat)
    (fetchDetail : Nat → Except String (Option Details)) (st : ScanState) :
    ScanResult × List Enriched :=
  let uniq := uniqueMatches st.allMatches
  ({ ok := true
     strategy := strategy
     batchesSearched := st.batchesSearched
     totalScanned := st.totalScanned
     matchesList := uniq.map (projectItem baseUrl)
     searchProgress := toString st.batchesSearched ++ "/" ++ toString maxBatches ++
       " batches, " ++ toString st.totalScanned ++ " configs scanned" },
   enrichMatches fetchDetail uniq)

/-! ## Lemmas about `uniqueMatches` -/

/-- Nat-valued first index of an id (meaningful when the id occurs). -/
def firstIdxId (a : Nat) : List Item → Nat
  | [] => 0
  | x :: xs => if x.id = a then 0 else firstIdxId a xs + 1

lemma jsFindIndexId_eq (a : Nat) (l : List Item) :
    jsFindIndexId a l =
      if a ∈ l.map Item.id then (firstIdxId a l : Int) else -1 := by
  induction l with
  | nil => simp [jsFindIndexId]
  | cons x xs ih =>
    by_cases hx : x.id = a
    · simp [jsFindIndexId, firstIdxId, hx]
    · have hmem : a ∈ (x :: xs).map Item.id ↔ a ∈ xs.map Item.id := by
        simp [List.map_cons]
        intro h
        exact absurd h.symm hx
      by_cases hxs : a ∈ xs.map Item.id
      · have hne : jsFindIndexId a xs ≠ -1 := by
          rw [ih, if_pos hxs]
          omega
        simp only [jsFindIndexId, if_neg hx, if_neg hne]
        rw [ih, if_pos hxs, if_pos (hmem.mpr hxs)]
        simp [firstIdxId, hx]
      · have h1 : jsFindIndexId a xs = -1 := by rw [ih, if_neg hxs]
        have h2 : a ∉ (x :: xs).map Item.id := fun h => hxs (hmem.mp h)
        rw [if_neg h2]
        simp [jsFindIndexId, hx, h1]

lemma get?_of_drop_cons {l ys : List Item} {y : Item} :
    ∀ {i : Nat}, l.drop i = y :: ys → l.get? i = some y := by
  induction l with
  | nil => intro i h; simp at h
  | cons x xs ih =>
    intro i h
    cases i with
    | zero => simp at h; simp [h.1]
    | succ j => exact ih h

lemma drop_succ_of_drop_cons {l ys : List Item} {y : Item} :
    ∀ {i : Nat}, l.drop i = y :: ys → l.drop (i + 1) = ys := by
  induction l with
  | nil => intro i h; simp at h
  | cons x xs ih =>
    intro i h
    cases i with
    | zero => simp at h; simp [h.2]
    | succ j => exact ih h

lemma mem_of_get? {l : List Item} {y : Item} :
    ∀ {i : Nat}, l.get? i = some y → y ∈ l := by
  induction l with
  | nil => intro i h; simp at h
  | cons x xs ih =>
    intro i h
    cases i with
    | zero => simp at h; simp [h]
    | succ j => exact List.mem_cons_of_mem _ (ih h)

lemma firstIdxId_eq_iff {l : List Item} {y : Item} :
    ∀ {i : Nat}, l.get? i = some y →
      (firstIdxId y.id l = i ↔ y.id ∉ (l.take i).map Item.id) := by
  induction l with
  | nil => intro i h; simp at h
  | cons x xs ih =>
    intro i h
    cases i with
    | zero =>
      simp at h
      simp [firstIdxId, h]
    | succ j =>
      simp only [List.get?] at h
      by_cases hx : x.id = y.id
      · simp [firstIdxId, hx]
      · simp only [firstIdxId, if_neg hx, List.take_succ_cons, List.map_cons,
          List.mem_cons]
        rw [Nat.add_right_cancel_iff, ih h]
        constructor
        · intro hnot hor
          rcases hor with h1 | h2
          · exact hx h1.symm
          · exact hnot h2
        · intro hnot h2
          exact hnot (Or.inr h2)

lemma dedupSeenIds_congr {s₁ s₂ : List Nat} (h : ∀ a, a ∈ s₁ ↔ a ∈ s₂) :
    ∀ ys : List Item, dedupSeenIds s₁ ys = dedupSeenIds s₂ ys := by
  intro ys
  induction ys generalizing s₁ s₂ with
  | nil => rfl
  | cons y ys ih =>
    by_cases hy : y.id ∈ s₁
    · rw [dedupSeenIds, dedupSeenIds, if_pos hy, if_pos ((h y.id).mp hy)]
      exact ih h
    · rw [dedupSeenIds, dedupSeenIds, if_neg hy,
        if_neg (fun hc => hy ((h y.id).mpr hc))]
      congr 1
      refine ih (fun a => ?_)
      simp only [List.mem_cons]
      exact or_congr Iff.rfl (h a)

lemma uniqueAux_eq_dedupSeen (l : List Item) :
    ∀ (ys : List Item) (i : Nat), l.drop i = ys →
      uniqueAux l i ys = dedupSeenIds ((l.take i).map Item.id) ys := by
  intro ys
  induction ys with
  | nil => intro i _; rfl
  | cons y ys ih =>
    intro i hdrop
    have hget : l.get? i = some y := get?_of_drop_cons hdrop
    have hdrop' : l.drop (i + 1) = ys := drop_succ_of_drop_cons hdrop
    have hmem : y ∈ l := mem_of_get? hget
    have hmemid : y.id ∈ l.map Item.id := List.mem_map_of_mem Item.id hmem
    have htest : (jsFindIndexId y.id l = (i : Int)) ↔
        y.id ∉ (l.take i).map Item.id := by
      rw [jsFindIndexId_eq, if_pos hmemid, Int.natCast_inj]
      exact firstIdxId_eq_iff hget
    have htake : l.take (i + 1) = l.take i ++ [y] := by
      have hg : l[i]? = some y := by
        rw [← List.get?_eq_getElem?]
        exact hget
      rw [List.take_succ, hg]
      rfl
    by_cases hseen : y.id ∈ (l.take i).map Item.id
    · have : ¬ (jsFindIndexId y.id l = (i : Int)) := fun hc => (htest.mp hc) hseen
      rw [uniqueAux, if_neg this, dedupSeenIds, if_pos hseen, ih (i + 1) hdrop',
        htake]
      refine dedupSeenIds_congr (fun a => ?_) ys
      simp only [List.map_append, List.map_cons, List.map_nil, List.mem_append,
        List.mem_cons, List.not_mem_nil, or_false]
      constructor
      · intro h
        rcases h with h | h
        · exact h
        · rw [h]; exact hseen
      · exact Or.inl
    · rw [uniqueAux, if_pos (htest.mpr hseen), dedupSeenIds, if_neg hseen,
        ih (i + 1) hdrop', htake]
      congr 1
      refine dedupSeenIds_congr (fun a => ?_) ys
      simp only [List.map_append, List.map_cons, List.map_nil, List.mem_append,
        List.mem_cons, List.not_mem_nil, or_false]
      exact Or.comm

/-- The JS index-based filter computes exactly first-occurrence-per-id
deduplication. -/
lemma uniqueMatches_eq_dedupSeen (l : List Item) :
    uniqueMatches l = dedupSeenIds [] l := by
  have := uniqueAux_eq_dedupSeen l l 0 rfl
  simpa [uniqueMatches] using this

lemma dedupSeen_sublist (seen : List Nat) :
    ∀ l : List Item, (dedupSeenIds seen l).Sublist l := by
  intro l
  induction l generalizing seen with
  | nil => simp [dedupSeenIds]
  | cons y ys ih =>
    by_cases hy : y.id ∈ seen
    · rw [dedupSeenIds, if_pos hy]
      exact (ih seen).cons y
    · rw [dedupSeenIds, if_neg hy]
      exact (ih (y.id :: seen)).cons₂ y

lemma dedupSeen_mem_not_seen {seen : List Nat} {r : Item} :
    ∀ {l : List Item}, r ∈ dedupSeenIds seen l → r.id ∉ seen := by
  intro l
  induction l generalizing seen with
  | nil => intro h; simp [dedupSeenIds] at h
  | cons y ys ih =>
    intro h
    by_cases hy : y.id ∈ seen
    · rw [dedupSeenIds, if_pos hy] at h
      exact ih h
    · rw [dedupSeenIds, if_neg hy] at h
      rcases List.mem_cons.mp h with h1 | h2
      · rw [h1]; exact hy
      · intro hc
        exact ih h2 (List.mem_cons_of_mem _ hc)

lemma dedupSeen_nodup_ids (seen : List Nat) :
    ∀ l : List Item, ((dedupSeenIds seen l).map Item.id).Nodup := by
  intro l
  induction l generalizing seen with
  | nil => simp [dedupSeenIds]
  | cons y ys ih =>
    by_cases hy : y.id ∈ seen
    · rw [dedupSeenIds, if_pos hy]
      exact ih seen
    · rw [dedupSeenIds, if_neg hy, List.map_cons, List.nodup_cons]
      refine ⟨fun hc => ?_, ih (y.id :: seen)⟩
      rcases List.mem_map.mp hc with ⟨r, hr, hid⟩
      exact dedupSeen_mem_not_seen hr (by rw [hid]; exact List.mem_cons_self _ _)

lemma dedupSeen_of_pairwise {seen : List Nat} :
    ∀ {l : List Item}, (∀ r ∈ l, r.id ∉ seen) →
      l.Pairwise (fun a b => a.id ≠ b.id) → dedupSeenIds seen l = l := by
  intro l
  induction l generalizing seen with
  | nil => intro _ _; rfl
  | cons y ys ih =>
    intro hseen hpw
    have hy : y.id ∉ seen := hseen y (List.mem_cons_self _ _)
    rw [dedupSeenIds, if_neg hy]
    congr 1
    refine ih (fun r hr => ?_) (List.Pairwise.of_cons hpw)
    intro hc
    rcases List.mem_cons.mp hc with h1 | h2
    · exact (List.pairwise_cons.mp hpw).1 r hr h1.symm
    · exact hseen r (List.mem_cons_of_mem _ hr) h2

lemma dedupSeen_find {r : Item} :
    ∀ {seen : List Nat} {l : List Item}, r ∈ dedupSeenIds seen l →
      l.find? (fun s => s.id == r.id) = some r := by
  intro seen l
  induction l generalizing seen with
  | nil => intro h; simp [dedupSeenIds] at h
  | cons y ys ih =>
    intro h
    by_cases hy : y.id ∈ seen
    · rw [dedupSeenIds, if_pos hy] at h
      have hne : y.id ≠ r.id := by
        intro hc
        exact dedupSeen_mem_not_seen h (hc ▸ hy)
      rw [List.find?_cons_of_neg _ (by simpa using hne)]
      exact ih h
    · rw [dedupSeenIds, if_neg hy] at h
      rcases List.mem_cons.mp h with h1 | h2
      · rw [h1] at *
        rw [List.find?_cons_of_pos _ (by simp)]
      · have hne : y.id ≠ r.id := by
          intro hc
          exact dedupSeen_mem_not_seen h2 (by rw [← hc]; exact List.mem_cons_self _ _)
        rw [List.find?_cons_of_neg _ (by simpa using hne)]
        exact ih h2

/-! ## Range/window helper lemmas for the chunk generation -/

lemma range_filter_lt (k : Nat) :
    ∀ n : Nat, (List.range n).filter (fun i => decide (i < k)) = List.range (min n k) := by
  intro n
  induction n with
  | zero => simp
  | succ n ih =>
    rw [List.range_succ, List.filter_append, ih]
    by_cases h : n < k
    · have h1 : min n k = n := Nat.min_eq_left (by omega)
      have h2 : min (n + 1) k = n + 1 := Nat.min_eq_left (by omega)
      rw [h1, h2, List.range_succ]
      simp [h]
    · have h1 : min n k = k := Nat.min_eq_right (by omega)
      have h2 : min (n + 1) k = k := Nat.min_eq_right (by omega)
      rw [h1, h2]
      simp [h]

lemma range_filter_window (n : Nat) :
    (List.range n).filter (fun i => decide (i + 3 ≤ n)) = List.range (n - 2) := by
  have hcong : (List.range n).filter (fun i => decide (i + 3 ≤ n)) =
      (List.range n).filter (fun i => decide (i < n - 2)) := by
    apply List.filter_congr
    intro a _
    have hiff : (a + 3 ≤ n) ↔ (a < n - 2) := by omega
    exact decide_eq_decide.mpr hiff
  rw [hcong, range_filter_lt]
  congr 1
  omega

lemma jsSubstring_window (s : String) (i : Nat) :
    jsSubstring s i (i + 3) = String.mk ((s.data.drop i).take 3) := by
  unfold jsSubstring
  rw [Nat.min_eq_left (by omega), Nat.max_eq_right (by omega)]
  have h3 : i + 3 - i = 3 := by omega
  rw [h3]

lemma jsSubstring_head (s : String) (k : Nat) :
    jsSubstring s 0 k = String.mk (s.data.take k) := by
  unfold jsSubstring
  rw [Nat.min_eq_left (Nat.zero_le k), Nat.max_eq_right (Nat.zero_le k)]
  simp

/-! ## Claim theorems -/

/-- A record whose description (but not name) contains the term. -/
def descOnlyItem : Item := ⟨7, some "x", some "findme", none, none, none⟩

/-- C1 (counterexample).  The claim asserts that all four strategies add
a record to the accumulator iff its name *or description* contains the
search term.  `keyword_chunks` (and `alphabet_sweep`) filter on the name
alone: a record whose description contains the term but whose name does
not satisfies the spec predicate yet is not added by the
`keyword_chunks` batch body. -/
theorem claim1_shared_predicate_counterexample :
    specMatch "findme" descOnlyItem = true ∧
    (keywordProcessBatch (lowerStr "findme") initScanState [descOnlyItem]).allMatches
      = [] ∧
    (alphabetProcessBatch (lowerStr "findme") initScanState [descOnlyItem]).allMatches
      = [] := by
  refine ⟨by decide, by decide, by decide⟩

/-- C1 (amended).  Per-batch filtering per strategy: `exhaustive_scan`
and `recent_first` append exactly the records matching the spec's
name-or-description predicate; `keyword_chunks` and `alphabet_sweep`
append exactly the records whose *name* (alone, case-folded) contains the
case-folded term. -/
theorem claim1_per_strategy_filter (term : String) (st : ScanState)
    (items : List Item) :
    (exhaustiveProcessBatch (lowerStr term) st items).allMatches
        = st.allMatches ++ items.filter (specMatch term) ∧
    (recentProcessBatch (lowerStr term) st items).allMatches
        = st.allMatches ++ items.filter (specMatch term) ∧
    (keywordProcessBatch (lowerStr term) st items).allMatches
        = st.allMatches ++ items.filter (nameOnlyMatch term) ∧
    (alphabetProcessBatch (lowerStr term) st items).allMatches
        = st.allMatches ++ items.filter (nameOnlyMatch term) :=
  ⟨rfl, rfl, rfl, rfl⟩

/-- C4.  `uniqueMatches` is idempotent, returns already-deduplicated
input unchanged, preserves first-occurrence order (it is a sublist of its
input with pairwise-distinct ids), and for every kept record the earliest
occurrence of its id in the input is that very record. -/
theorem claim4_dedup_first_occurrence (l : List Item) :
    (l.Pairwise (fun a b => a.id ≠ b.id) → uniqueMatches l = l) ∧
    uniqueMatches (uniqueMatches l) = uniqueMatches l ∧
    (uniqueMatches l).Sublist l ∧
    ((uniqueMatches l).map Item.id).Nodup ∧
    ∀ r ∈ uniqueMatches l, l.find? (fun s => s.id == r.id) = some r := by
  have he := uniqueMatches_eq_dedupSeen l
  have hnd : ((uniqueMatches l).map Item.id).Nodup := by
    rw [he]
    exact dedupSeen_nodup_ids [] l
  refine ⟨?_, ?_, ?_, hnd, ?_⟩
  · intro hpw
    rw [he]
    exact dedupSeen_of_pairwise (fun r _ => List.not_mem_nil r.id) hpw
  · have hpw : (uniqueMatches l).Pairwise (fun a b => a.id ≠ b.id) :=
      List.pairwise_map.mp hnd
    rw [uniqueMatches_eq_dedupSeen (uniqueMatches l)]
    exact dedupSeen_of_pairwise (fun r _ => List.not_mem_nil r.id) hpw
  · rw [he]
    exact dedupSeen_sublist [] l
  · intro r hr
    rw [he] at hr
    exact dedupSeen_find hr

def dedupItemA : Item := ⟨1, some "alpha", none, none, none, none⟩

def dedupItemB : Item := ⟨2, some "beta", none, none, none, none⟩

theorem claim4_dedup_first_occurrence_witness :
    uniqueMatches [dedupItemA, dedupItemB] = [dedupItemA, dedupItemB] :=
  (claim4_dedup_first_occurrence [dedupItemA, dedupItemB]).1 (by decide)

/-- C5.  The `keyword_chunks` chunk sequence is exactly the spec's
description (all 3-character windows, then the two halves split at the
integer-floor midpoint), and on `"abcde"` the pre-deduplication list and
the deduplicated set are the ones the spec displays. -/
theorem claim5_keyword_chunk_generation :
    chunksPre "abcde" = ["abc", "bcd", "cde", "ab", "cde"] ∧
    chunkSet "abcde" = ["abc", "bcd", "cde", "ab"] ∧
    ∀ term : String, chunksPre term = specKeywordChunks term := by
  refine ⟨by decide, by decide, fun term => ?_⟩
  unfold chunksPre specKeywordChunks chunkWindows
  rw [range_filter_window]
  congr 1
  · apply List.map_congr_left
    intro i _
    exact jsSubstring_window term i
  · rw [jsSubstring_head]
    rfl

/-! ## Lemmas about the alphabet_sweep and keyword_chunks loops -/

lemma alphabetStep_stuck {searchTermLower : String} {maxBatches : Nat}
    {env : Nat → Outcome} {st : ScanState} (h : st.batchesSearched ≥ maxBatches) :
    ∀ ls : List String,
      ls.foldl (alphabetStep searchTermLower maxBatches env) st = st := by
  intro ls
  induction ls with
  | nil => rfl
  | cons l ls ih =>
    rw [List.foldl_cons]
    have hstep : alphabetStep searchTermLower maxBatches env st l = st := by
      simp only [alphabetStep, if_pos h]
    rw [hstep]
    exact ih

lemma alphabetSweep_allok (searchTermLower : String) (maxBatches : Nat)
    (env : Nat → Outcome) (henv : ∀ n, env n ≠ Outcome.failure) :
    ∀ (ls : List String) (st : ScanState),
      (ls.foldl (alphabetStep searchTermLower maxBatches env) st).issued =
        st.issued ++ (ls.take (maxBatches - st.batchesSearched)).map
          (fun l => ⟨some l, 200, none⟩) := by
  intro ls
  induction ls with
  | nil => intro st; simp
  | cons l ls ih =>
    intro st
    by_cases hb : st.batchesSearched ≥ maxBatches
    · have hz : maxBatches - st.batchesSearched = 0 := Nat.sub_eq_zero_of_le hb
      rw [hz, alphabetStep_stuck hb (l :: ls)]
      simp
    · obtain ⟨items, nc, hsucc⟩ :
          ∃ items nc, env st.issued.length = Outcome.success items nc := by
        cases h : env st.issued.length with
        | success items nc => exact ⟨items, nc, rfl⟩
        | failure => exact absurd h (henv _)
      have hstep : alphabetStep searchTermLower maxBatches env st l =
          alphabetProcessBatch searchTermLower
            { st with issued := st.issued ++ [⟨some l, 200, none⟩] } items := by
        simp only [alphabetStep, if_neg hb, hsucc]
      rw [List.foldl_cons, hstep, ih]
      have hsub : maxBatches - st.batchesSearched =
          (maxBatches - (st.batchesSearched + 1)) + 1 := by omega
      rw [hsub]
      simp [alphabetProcessBatch, List.take_succ_cons]

/-- The environment that fails the very first request and succeeds (with
an empty page) afterwards. -/
def claim6FailFirstEnv : Nat → Outcome :=
  fun n => if n = 0 then Outcome.failure else Outcome.success [] none

set_option maxRecDepth 8000 in
/-- C6 (counterexample).  The claim says `alphabet_sweep` issues exactly
`min(36, maxBatches)` queries for *every* `maxBatches ∈ 1..50`.  But
`batchesSearched` counts only successful batches: with `maxBatches = 1`
and a failing first request, the loop goes on to the second letter and
issues 2 queries, not `min 36 1 = 1`. -/
theorem claim6_query_count_counterexample :
    (alphabetSweepScan "x" 1 claim6FailFirstEnv).issued.length = 2 ∧
    (2 : Nat) ≠ min 36 1 := by
  refine ⟨by decide, by decide⟩

/-- C6 (amended).  Provided every batch request succeeds, `alphabet_sweep`
issues exactly `min(36, maxBatches)` queries, one `name_contains` query
per alphabet symbol in order (lowercase a–z then 0–9), independent of the
search term. -/
theorem claim6_alphabet_sweep_query_count (term : String) (maxBatches : Nat)
    (env : Nat → Outcome) (henv : ∀ n, env n ≠ Outcome.failure) :
    (alphabetSweepScan term maxBatches env).issued =
      (alphabetLetters.take maxBatches).map (fun l => ⟨some l, 200, none⟩) ∧
    (alphabetSweepScan term maxBatches env).issued.length = min 36 maxBatches := by
  have h := alphabetSweep_allok (lowerStr term) maxBatches env henv
    alphabetLetters initScanState
  have hscan : (alphabetSweepScan term maxBatches env).issued =
      (alphabetLetters.take maxBatches).map (fun l => ⟨some l, 200, none⟩) := by
    simpa [alphabetSweepScan, initScanState] using h
  refine ⟨hscan, ?_⟩
  rw [hscan, List.length_map, List.length_take]
  have hlen : alphabetLetters.length = 36 := by decide
  rw [hlen, Nat.min_comm]

/-- The all-success environment returning empty pages. -/
def allOkEnv : Nat → Outcome := fun _ => Outcome.success [] none

theorem claim6_alphabet_sweep_query_count_witness :
    (alphabetSweepScan "sales" 10 allOkEnv).issued.length = min 36 10 :=
  (claim6_alphabet_sweep_query_count "sales" 10 allOkEnv
    (fun n => by simp [allOkEnv])).2

lemma keywordStep_issued (searchTermLower : String) (maxBatches : Nat)
    (env : Nat → Outcome) (st : ScanState) (c : String) :
    ∃ add : List Query,
      (keywordStep searchTermLower maxBatches env st c).issued = st.issued ++ add := by
  by_cases hb : st.batchesSearched ≥ maxBatches
  · exact ⟨[], by simp [keywordStep, if_pos hb]⟩
  · cases h : env st.issued.length with
    | success items nc =>
      exact ⟨[⟨some c, 200, none⟩],
        by simp [keywordStep, if_neg hb, h, keywordProcessBatch]⟩
    | failure =>
      exact ⟨[⟨some c, 200, none⟩], by simp [keywordStep, if_neg hb, h]⟩

lemma keywordFold_issued_mono (searchTermLower : String) (maxBatches : Nat)
    (env : Nat → Outcome) :
    ∀ (chunks : List String) (st : ScanState),
      ∃ rest : List Query,
        (chunks.foldl (keywordStep searchTermLower maxBatches env) st).issued =
          st.issued ++ rest := by
  intro chunks
  induction chunks with
  | nil => intro st; exact ⟨[], by simp⟩
  | cons c cs ih =>
    intro st
    obtain ⟨add, hadd⟩ := keywordStep_issued searchTermLower maxBatches env st c
    obtain ⟨rest, hrest⟩ := ih (keywordStep searchTermLower maxBatches env st c)
    refine ⟨add ++ rest, ?_⟩
    rw [List.foldl_cons, hrest, hadd, List.append_assoc]

/-- C10.  For a single-character term the window loop contributes
nothing, the first half is the empty string and the second half is the
whole term, so the deduplicated chunk set is `["", term]`; consequently
the first query `keyword_chunks` issues carries `name_contains = ""`
(the empty string survives `buildUrl`'s query serialization, since only
`undefined`/`null` are dropped). -/
theorem claim10_single_char_term_chunks (c : Char) (maxBatches : Nat)
    (env : Nat → Outcome) (hmax : 1 ≤ maxBatches) :
    chunkSet (String.mk [c]) = ["", String.mk [c]] ∧
    (keywordChunksScan (String.mk [c]) maxBatches env).issued.head? =
      some ⟨some "", 200, none⟩ ∧
    serializeQuery [("name_contains", JsVal.str ""), ("limit", JsVal.num 200)] =
      [("name_contains", ""), ("limit", "200")] := by
  have hne : String.mk [c] ≠ "" := by
    intro h
    have h2 : ([c] : List Char) = [] := congrArg String.data h
    simp at h2
  have hlen : (String.mk [c]).length = 1 := rfl
  have hdiv : (String.mk [c]).length / 2 = 0 := by
    rw [hlen]
  have hpre : chunksPre (String.mk [c]) = ["", String.mk [c]] := by
    unfold chunksPre chunkWindows
    rw [hdiv, hlen]
    rfl
  have hset : chunkSet (String.mk [c]) = ["", String.mk [c]] := by
    rw [chunkSet, hpre]
    simp [setDedup, hne]
  refine ⟨hset, ?_, by decide⟩
  have hmb : ¬ maxBatches = 0 := by omega
  have hfirst : (keywordStep (lowerStr (String.mk [c])) maxBatches env
      initScanState "").issued = [⟨some "", 200, none⟩] := by
    cases h : env 0 with
    | success items nc =>
      simp [keywordStep, initScanState, hmb, h, keywordProcessBatch]
    | failure => simp [keywordStep, initScanState, hmb, h]
  obtain ⟨rest, hrest⟩ := keywordFold_issued_mono (lowerStr (String.mk [c]))
    maxBatches env [String.mk [c]]
    (keywordStep (lowerStr (String.mk [c])) maxBatches env initScanState "")
  rw [keywordChunksScan, hset, List.foldl_cons, hrest, hfirst]
  rfl

theorem claim10_single_char_term_chunks_witness :
    (keywordChunksScan (String.mk ['a']) 10 allOkEnv).issued.head? =
      some ⟨some "", 200, none⟩ :=
  (claim10_single_char_term_chunks 'a' 10 allOkEnv (by omega)).2.1

/-- C8.  For a settled response with a non-empty body, the envelope
defines exactly one of `data`/`text`: `data` is populated only when the
body is classified as JSON (never for `responseType = 'text'`), a
classified body that fails to parse falls back to `text` without
raising, and a 2xx response returns the envelope rather than throwing. -/
theorem claim8_envelope_exclusivity (parse : String → Option Json)
    (responseType method : String) (resp : FetchResponse)
    (hbody : resp.bodyText ≠ "") :
    ((mkSummary parse responseType method resp).data.isSome ↔
      (mkSummary parse responseType method resp).text = none) ∧
    ((mkSummary parse responseType method resp).data = none →
      (mkSummary parse responseType method resp).text = some resp.bodyText) ∧
    ((mkSummary parse responseType method resp).data.isSome →
      shouldParseJson resp responseType = true ∧ responseType ≠ "text") ∧
    (shouldParseJson resp responseType = true → parse resp.bodyText = none →
      (mkSummary parse responseType method resp).data = none ∧
      (mkSummary parse responseType method resp).text = some resp.bodyText) ∧
    (respOk resp = true → ∀ reqCtx : RequestContext,
      processResponse parse responseType reqCtx resp =
        Except.ok (mkSummary parse responseType reqCtx.method resp)) := by
  by_cases hs : shouldParseJson resp responseType = true
  · cases hp : parse resp.bodyText with
    | none =>
      have hd : (mkSummary parse responseType method resp).data = none := by
        simp [mkSummary, hbody, hs, hp]
      have ht : (mkSummary parse responseType method resp).text =
          some resp.bodyText := by
        simp [mkSummary, hbody, hs, hp]
      refine ⟨?_, fun _ => ht, ?_, fun _ _ => ⟨hd, ht⟩, ?_⟩
      · rw [hd, ht]; simp
      · intro hcon; rw [hd] at hcon; simp at hcon
      · intro hok reqCtx; simp [processResponse, hok]
    | some j =>
      have hd : (mkSummary parse responseType method resp).data = some j := by
        simp [mkSummary, hbody, hs, hp]
      have ht : (mkSummary parse responseType method resp).text = none := by
        simp [mkSummary, hbody, hs, hp]
      refine ⟨?_, ?_, ?_, ?_, ?_⟩
      · rw [hd, ht]; simp
      · intro hcon; rw [hd] at hcon; simp at hcon
      · intro _
        refine ⟨hs, fun hrt => ?_⟩
        rw [hrt] at hs
        simp [shouldParseJson] at hs
      · intro _ hpn
        simp [hp] at hpn
      · intro hok reqCtx; simp [processResponse, hok]
  · have hs' : shouldParseJson resp responseType = false := Bool.eq_false_iff.mpr hs
    have hd : (mkSummary parse responseType method resp).data = none := by
      simp [mkSummary, hbody, hs']
    have ht : (mkSummary parse responseType method resp).text =
        some resp.bodyText := by
      simp [mkSummary, hbody, hs']
    refine ⟨?_, fun _ => ht, ?_, fun hcon => absurd hcon hs, ?_⟩
    · rw [hd, ht]; simp
    · intro hcon; rw [hd] at hcon; simp at hcon
    · intro hok reqCtx; simp [processResponse, hok]

def claim8Resp : FetchResponse :=
  ⟨200, "OK", "https://trocco.io/api/job_definitions",
   [("content-type", "application/json")], "not json"⟩

def claim8Parse : String → Option Json := fun _ => none

theorem claim8_envelope_exclusivity_witness :
    (mkSummary claim8Parse "auto" "GET" claim8Resp).data = none ∧
    (mkSummary claim8Parse "auto" "GET" claim8Resp).text = some "not json" :=
  (claim8_envelope_exclusivity claim8Parse "auto" "GET" claim8Resp
    (by decide)).2.2.2.1 (by decide) rfl

/-- C3.  Every non-2xx response makes `request` throw the single
`TroccoApiError` type, carrying both the request context and the
response summary; the summary exposes the raw status, and when the body
is non-empty and classified as JSON its parse result is exposed as
`data` (so a 404 with body `{msg:"x"}` exposes `status = 404` and
`data = {msg:"x"}`). -/
theorem claim3_non2xx_api_error (parse : String → Option Json)
    (responseType : String) (reqCtx : RequestContext) (resp : FetchResponse)
    (hbad : respOk resp = false) :
    processResponse parse responseType reqCtx resp =
      Except.error
        { message := "Trocco API responded with " ++ toString resp.status ++
            " " ++ resp.statusText
          request := reqCtx
          response := some (mkSummary parse responseType reqCtx.method resp) } ∧
    (mkSummary parse responseType reqCtx.method resp).status = resp.status ∧
    (shouldParseJson resp responseType = true → resp.bodyText ≠ "" →
      (mkSummary parse responseType reqCtx.method resp).data =
        parse resp.bodyText) := by
  refine ⟨?_, rfl, ?_⟩
  · simp [processResponse, hbad]
  · intro hs hbody
    simp [mkSummary, hbody, hs]

def msgJson : Json := Json.obj [("msg", Json.str "x")]

def resp404 : FetchResponse :=
  ⟨404, "Not Found", "https://trocco.io/api/job_definitions",
   [("content-type", "application/json")], "\x7b\"msg\":\"x\"\x7d"⟩

def parse404 : String → Option Json :=
  fun s => if s = "\x7b\"msg\":\"x\"\x7d" then some msgJson else none

def ctx404 : RequestContext :=
  ⟨"https://trocco.io/api/job_definitions", "GET", 45000⟩

theorem claim3_non2xx_api_error_witness :
    (mkSummary parse404 "auto" "GET" resp404).status = 404 ∧
    (mkSummary parse404 "auto" "GET" resp404).data = some msgJson := by
  have h := claim3_non2xx_api_error parse404 "auto" ctx404 resp404 (by decide)
  refine ⟨h.2.1.trans rfl, ?_⟩
  have hd := h.2.2 (by decide) (by decide)
  exact hd.trans rfl

/-- C7.  When `path` is an absolute URL, `request` accepts it only if its
resolved form starts with the configured base URL; otherwise `buildUrl`
throws the usage error synchronously, so the call fails with the usage
error and no fetch is attempted (for *any* transport outcome). -/
theorem claim7_cross_origin_usage_error (U : UrlLib) (baseUrl path : String)
    (query : List (String × JsVal)) (parse : String → Option Json)
    (method : String) (timeoutMs : Nat) (responseType : String)
    (outcome : FetchOutcome) (habs : strStartsWith path "http" = true) :
    (strStartsWith (U.href path) baseUrl = false →
      request U baseUrl parse path method query timeoutMs responseType outcome =
        (Except.error (ReqError.usage
          "External URLs are not allowed. Pass a relative Trocco API path."),
         false)) ∧
    (strStartsWith (U.href path) baseUrl = true →
      buildUrl U baseUrl path query =
        Except.ok ⟨U.resolve (U.relPart path) baseUrl, serializeQuery query⟩) := by
  have hne : ¬ (path = "") := by
    intro h
    rw [h] at habs
    exact absurd habs (by decide)
  constructor
  · intro hout
    have hbuild : buildUrl U baseUrl path query =
        Except.error "External URLs are not allowed. Pass a relative Trocco API path." := by
      simp [buildUrl, hne, habs, hout]
    simp [request, hbuild]
  · intro hok
    simp [buildUrl, hne, habs, hok]

def idUrlLib : UrlLib := ⟨fun s => s, fun s => s, fun rel base => base ++ rel⟩

theorem claim7_cross_origin_usage_error_witness :
    request idUrlLib "https://trocco.io/api/" (fun _ => none)
        "https://evil.example/steal" "GET" [] 45000 "auto"
        (FetchOutcome.resolved ⟨200, "OK", "", [], ""⟩) =
      (Except.error (ReqError.usage
        "External URLs are not allowed. Pass a relative Trocco API path."),
       false) :=
  (claim7_cross_origin_usage_error idUrlLib "https://trocco.io/api/"
    "https://evil.example/steal" [] (fun _ => none) "GET" 45000 "auto"
    (FetchOutcome.resolved ⟨200, "OK", "", [], ""⟩) (by decide)).1 (by decide)

/-- C2.  The composite cancellation signal built by `request` carries the
reason of whichever source aborted first: if the external handle fires
before the timeout the combined reason is the external reason, and vice
versa; and when the fetch then rejects with that reason, the resulting
`TroccoApiError` carries exactly that message (with the request context
and no response). -/
theorem claim2_first_abort_reason_wins (t te : Nat) (re : String) :
    (te < t → requestCompositeReason t ⟨false, "", some te, re⟩ = some re) ∧
    (t < te → requestCompositeReason t ⟨false, "", some te, re⟩ =
      some (timeoutMessage t)) ∧
    (∀ (U : UrlLib) (baseUrl path method responseType : String)
        (query : List (String × JsVal)) (parse : String → Option Json)
        (b : BuiltUrl),
      buildUrl U baseUrl path query = Except.ok b →
      (request U baseUrl parse path method query t responseType
        (FetchOutcome.rejected re)).1 =
        Except.error (ReqError.api
          { message := re, request := ⟨b.address, method, t⟩,
            response := none })) := by
  refine ⟨?_, ?_, ?_⟩
  · intro h
    have hnl : ¬ t < te := by omega
    simp [requestCompositeReason, anySignalReason, setupScan, firedEvents,
      sortByTime, insertByTime, jsAbort, hnl, List.foldl_cons, List.foldl_nil]
  · intro h
    simp [requestCompositeReason, anySignalReason, setupScan, firedEvents,
      sortByTime, insertByTime, jsAbort, h, List.foldl_cons, List.foldl_nil]
  · intro U baseUrl path method responseType query parse b hbuild
    simp [request, hbuild]

theorem claim2_first_abort_reason_wins_witness :
    requestCompositeReason 100 ⟨false, "", some 5, "caller aborted"⟩ =
      some "caller aborted" :=
  (claim2_first_abort_reason_wins 100 5 "caller aborted").1 (by decide)

/-- C9.  A detail-fetch failure for one of the (at most five) enrichment
candidates does not remove it from the returned matches, does not fail
the call (`ok` stays `true`), and gives that candidate — and only
that basis — the empty config, while candidates whose fetch succeeded
keep the config extracted from their fetched details. -/
theorem claim9_detail_failure_nonfatal (baseUrl strategy : String)
    (maxBatches : Nat) (fetchDetail : Nat → Except String (Option Details))
    (st : ScanState) (r : Item)
    (hr : r ∈ (uniqueMatches st.allMatches).take 5)
    (hfail : fetchJobDefinitionDetails fetchDetail r.id = none)
    (_hok : ∀ s ∈ (uniqueMatches st.allMatches).take 5, s.id ≠ r.id →
      ∃ d, fetchJobDefinitionDetails fetchDetail s.id = some d) :
    (buildSearchOutcome baseUrl strategy maxBatches fetchDetail st).1.ok = true ∧
    (buildSearchOutcome baseUrl strategy maxBatches fetchDetail st).1.matchesList =
      (uniqueMatches st.allMatches).map (projectItem baseUrl) ∧
    projectItem baseUrl r ∈
      (buildSearchOutcome baseUrl strategy maxBatches fetchDetail st).1.matchesList ∧
    (⟨r, emptyConfig⟩ : Enriched) ∈
      (buildSearchOutcome baseUrl strategy maxBatches fetchDetail st).2 ∧
    (∀ s ∈ (uniqueMatches st.allMatches).take 5, ∀ d,
      fetchJobDefinitionDetails fetchDetail s.id = some d →
      (⟨s, extractConfigDetails d⟩ : Enriched) ∈
        (buildSearchOutcome baseUrl strategy maxBatches fetchDetail st).2) ∧
    (buildSearchOutcome baseUrl strategy maxBatches fetchDetail st).2.length =
      min 5 (uniqueMatches st.allMatches).length := by
  refine ⟨rfl, rfl, ?_, ?_, ?_, ?_⟩
  · exact List.mem_map_of_mem _ (List.mem_of_mem_take hr)
  · refine List.mem_map.mpr ⟨r, hr, ?_⟩
    rw [hfail]
  · intro s hs d hd
    refine List.mem_map.mpr ⟨s, hs, ?_⟩
    rw [hd]
  · simp only [buildSearchOutcome, enrichMatches, List.length_map,
      List.length_take]

def enrichItemFail : Item := ⟨1, some "a", none, none, none, none⟩

def enrichItemOk : Item := ⟨2, some "b", none, none, none, none⟩

def enrichDetails : Details :=
  ⟨some "s3",
   some ⟨some ⟨some "bucket1", some "pfx/", none, none, some "ap-northeast-1"⟩,
         none, ⟨none, none, none, none, none⟩⟩,
   none, none⟩

def enrichFetch : Nat → Except String (Option Details) :=
  fun n => if n = 1 then Except.error "boom" else Except.ok (some enrichDetails)

def enrichState : ScanState := ⟨2, 1, [enrichItemFail, enrichItemOk], []⟩

theorem claim9_detail_failure_nonfatal_witness :
    (⟨enrichItemFail, emptyConfig⟩ : Enriched) ∈
      (buildSearchOutcome "https://trocco.io/api" "exhaustive_scan" 10
        enrichFetch enrichState).2 := by
  have hok : ∀ s ∈ (uniqueMatches enrichState.allMatches).take 5,
      s.id ≠ enrichItemFail.id →
      ∃ d, fetchJobDefinitionDetails enrichFetch s.id = some d := by
    intro s hs hne
    have hlist : (uniqueMatches enrichState.allMatches).take 5 =
        [enrichItemFail, enrichItemOk] := by decide
    rw [hlist] at hs
    simp at hs
    rcases hs with rfl | rfl
    · exact absurd rfl hne
    · exact ⟨enrichDetails, rfl⟩
  exact (claim9_detail_failure_nonfatal "https://trocco.io/api"
    "exhaustive_scan" 10 enrichFetch enrichState enrichItemFail
    (by decide) (by decide) hok).2.2.2.1

end Trocco
